import Mathlib

/-!
Verification of the demonstration functions in the effective-py notebooks.

Each Python snippet is shallowly embedded as a pure Lean definition:
Python numbers are modelled as rationals (`Rat`), Python lists as `List`,
Python dictionaries of a known shape as structures, exceptions as explicit
sum types, and file or lock state as explicit state records threaded
through the functions.
-/

set_option maxHeartbeats 1000000

namespace EffectivePy

/-! ### Item: docstrings (Collaboration.ipynb) — palindrome -/

/-- Embedding of `def palindrome(word): return word == word[::-1]` from
Collaboration.ipynb.  A Python string is modelled as its list of characters;
the slice `word[::-1]` is list reversal. -/
def palindrome (word : List Char) : Bool :=
  word == word.reverse

/-! ### Item 21 (Functions.ipynb) — safe_division / better_safe_division

Python division `number / divisor` can raise `OverflowError` or
`ZeroDivisionError`.  The primitive division is kept abstract (a parameter
`div`), since both Python functions invoke the very same `/` operator; a
concrete rational instance `pydiv` realises the `ZeroDivisionError` case. -/

/-- Exceptions that the division snippets catch. -/
inductive PyExn where
  | overflowError
  | zeroDivisionError
deriving DecidableEq

/-- Result values of safe_division: a finite number or `float(%inf%)`. -/
inductive PyNum where
  | num (q : Rat)
  | inf
deriving DecidableEq

/-- Embedding of `safe_division(number, divisor, ignore_overflow,
ignore_zero_division)` from Functions.ipynb, Item 21.  All four arguments are
positional. -/
def safe_division (div : Rat → Rat → Except PyExn Rat)
    (number divisor : Rat)
    (ignore_overflow ignore_zero_division : Bool) : Except PyExn PyNum :=
  match div number divisor with
  | .ok v => .ok (.num v)
  | .error .overflowError =>
      if ignore_overflow then .ok (.num 0) else .error .overflowError
  | .error .zeroDivisionError =>
      if ignore_zero_division then .ok .inf else .error .zeroDivisionError

/-- Embedding of `better_safe_division(number, divisor, *, ignore_overflow=False,
ignore_zero_division=False)` from Functions.ipynb, Item 21.  The body is the
same try/except as `safe_division`; the star only forces the two flags to be
passed as keywords at call sites, which a shallow embedding renders as plain
arguments. -/
def better_safe_division (div : Rat → Rat → Except PyExn Rat)
    (number divisor : Rat)
    (ignore_overflow ignore_zero_division : Bool) : Except PyExn PyNum :=
  match div number divisor with
  | .ok v => .ok (.num v)
  | .error .overflowError =>
      if ignore_overflow then .ok (.num 0) else .error .overflowError
  | .error .zeroDivisionError =>
      if ignore_zero_division then .ok .inf else .error .zeroDivisionError

/-- Rational-number instance of the Python `/` operator: raises
`ZeroDivisionError` on a zero divisor, never overflows. -/
def pydiv (number divisor : Rat) : Except PyExn Rat :=
  if divisor = 0 then .error .zeroDivisionError else .ok (number / divisor)

/-! ### Item 44 (Collaboration.ipynb) — copyreg pickling of GameState -/

/-- Embedding of `class GameState` from Collaboration.ipynb: constructor
defaults are level=0, lives=4, points=0. -/
structure GameState where
  level : Int
  lives : Int
  points : Int
deriving DecidableEq

/-- The `__dict__` of a GameState object.  Its keys are level, lives and
points, plus an optional `version` entry that `pickle_game_state` inserts. -/
structure GSDict where
  level : Int
  lives : Int
  points : Int
  version : Option Int
deriving DecidableEq

/-- The `__dict__` of a freshly constructed GameState: no `version` key. -/
def gsDict (s : GameState) : GSDict :=
  { level := s.level, lives := s.lives, points := s.points, version := none }

/-- Embedding of `unpickle_game_state(kwargs)` from Collaboration.ipynb:
`version = kwargs.pop(%version%, 1)`; a version-1 payload drops the `lives`
entry, so `GameState(**kwargs)` falls back to the constructor default
`lives=4`; otherwise all three entries are passed through. -/
def unpickle_game_state (kwargs : GSDict) : GameState :=
  let version := kwargs.version.getD 1
  if version = 1 then
    { level := kwargs.level, lives := 4, points := kwargs.points }
  else
    { level := kwargs.level, lives := kwargs.lives, points := kwargs.points }

/-- Embedding of `pickle_game_state(game_state)` from Collaboration.ipynb:
`kwargs = game_state.__dict__` aliases the dict, then `kwargs[%version%] = 2`
mutates it in place.  The function value is the payload handed to pickle. -/
def pickle_game_state (d : GSDict) : GSDict :=
  { level := d.level, lives := d.lives, points := d.points, version := some 2 }

/-- Embedding of `pickle.dumps` on a GameState registered through copyreg:
the first component is the serialized payload (the kwargs dict), the second
is the state of the object dict after the call.  Because
`pickle_game_state` returns `game_state.__dict__` itself, both components
are the same mutated dict. -/
def pickle_dumps (d : GSDict) : GSDict × GSDict :=
  let payload := pickle_game_state d
  (payload, payload)

/-- Embedding of `pickle.loads` on such a payload: the stored reduce function
`unpickle_game_state` is applied to the deserialized kwargs. -/
def pickle_loads (payload : GSDict) : GameState :=
  unpickle_game_state payload

/-! ### Item 43 (Collaboration.ipynb) — Lock demo: with vs try/finally -/

/-- Observable events of the lock demo. -/
inductive LockEv where
  | acquired
  | ran (heldDuring : Bool)
  | released
deriving DecidableEq

/-- State of the demo: whether the lock is held, plus the event history. -/
structure LockSt where
  held : Bool
  trace : List LockEv
deriving DecidableEq

/-- Result of the demo body. -/
inductive BodyRes where
  | ok
  | raised
deriving DecidableEq

/-- Embedding of `lock.acquire()` (also `Lock.__enter__`). -/
def lockAcquire (s : LockSt) : LockSt :=
  { held := true, trace := s.trace ++ [.acquired] }

/-- Embedding of `lock.release()` (also `Lock.__exit__`). -/
def lockRelease (s : LockSt) : LockSt :=
  { held := false, trace := s.trace ++ [.released] }

/-- The body `print(%Lock is held%)`, generalised to a body that may raise;
the event records whether the lock was held while the body ran. -/
def runBody (raises : Bool) (s : LockSt) : BodyRes × LockSt :=
  ((if raises then .raised else .ok),
   { held := s.held, trace := s.trace ++ [.ran s.held] })

/-- Embedding of the with-statement form from Collaboration.ipynb, Item 43:
`with lock: print(%Lock is held%)`.  `__enter__` acquires, the body runs,
and `__exit__` releases on both normal exit and exception. -/
def withLockDemo (raises : Bool) (s : LockSt) : BodyRes × LockSt :=
  let s1 := lockAcquire s
  let (r, s2) := runBody raises s1
  (r, lockRelease s2)

/-- Embedding of the explicit form from Collaboration.ipynb, Item 43:
`lock.acquire(); try: print(%Lock is held%) finally: lock.release()`.
The finally clause releases on both normal exit and exception. -/
def explicitLockDemo (raises : Bool) (s : LockSt) : BodyRes × LockSt :=
  let s1 := lockAcquire s
  let (r, s2) := runBody raises s1
  (r, lockRelease s2)

/-! ### Pythonic-Thinking.ipynb — divide_json (try/except/else/finally) -/

/-- A parsed JSON object with the two numeric fields the snippet reads. -/
structure JOp where
  numerator : Rat
  denominator : Rat
deriving DecidableEq

/-- The file behind `path`, together with the state of the handle that
`divide_json` opens on it.  `op` is the parse of the contents (`none` when
`json.loads` raises), `result` the value of the `result` field written back,
and `closed` whether the handle has been closed. -/
structure JFile where
  op : Option JOp
  result : Option Rat
  closed : Bool
deriving DecidableEq

/-- Outcome of `divide_json`: the UNDEFINED sentinel, a returned quotient, or
an unhandled exception propagating out of the function. -/
inductive DivideResult where
  | undefined
  | value (v : Rat)
  | exn
deriving DecidableEq

/-- Embedding of `divide_json(path)` from Pythonic-Thinking.ipynb: read and
parse the file and divide numerator by denominator in the try block; return
UNDEFINED on ZeroDivisionError; in the else block write the object extended
with a `result` field back and return the quotient; the finally block closes
the handle on every path, including when the parse raises. -/
def divide_json (f : JFile) : DivideResult × JFile :=
  match f.op with
  | none =>
      (.exn, { op := f.op, result := f.result, closed := true })
  | some op =>
      if op.denominator = 0 then
        (.undefined, { op := f.op, result := f.result, closed := true })
      else
        let value := op.numerator / op.denominator
        (.value value, { op := f.op, result := some value, closed := true })

/-! ### Item 56 (Production.ipynb) — to_str and its unittest cases -/

/-- A Python string, as its list of unicode code points. -/
abbrev PyStr := List Nat

/-- The argument of `to_str`: a str, a bytes object (a list of byte values),
or any other object such as `object()`. -/
inductive PyData where
  | str (s : PyStr)
  | bytes (b : List Nat)
  | obj
deriving DecidableEq

/-- Outcome of `to_str`: a returned string, a raised TypeError, or a
UnicodeDecodeError raised by `bytes.decode`. -/
inductive ToStrResult where
  | ok (s : PyStr)
  | typeError
  | unicodeDecodeError
deriving DecidableEq

/-- Whether a byte is a UTF-8 continuation byte (10xxxxxx). -/
def utf8Cont (c : Nat) : Bool :=
  0x80 ≤ c && c < 0xC0

/-- Strict UTF-8 decoding of a byte list into code points, as performed by
`bytes.decode(%utf-8%)`: rejects truncated sequences, stray continuation
bytes, overlong encodings, surrogates and code points above 0x10FFFF. -/
def utf8Decode : List Nat → Option PyStr
  | [] => some []
  | b :: rest =>
    if b < 0x80 then
      (utf8Decode rest).map (fun s => b :: s)
    else if b < 0xC2 then
      none
    else if b < 0xE0 then
      match rest with
      | c :: rest2 =>
          if utf8Cont c then
            (utf8Decode rest2).map (fun s => ((b - 0xC0) * 0x40 + (c - 0x80)) :: s)
          else none
      | [] => none
    else if b < 0xF0 then
      match rest with
      | c :: d :: rest2 =>
          if (if b == 0xE0 then 0xA0 ≤ c && c < 0xC0
              else if b == 0xED then 0x80 ≤ c && c < 0xA0
              else utf8Cont c) && utf8Cont d then
            (utf8Decode rest2).map
              (fun s => ((b - 0xE0) * 0x1000 + (c - 0x80) * 0x40 + (d - 0x80)) :: s)
          else none
      | _ => none
    else if b < 0xF5 then
      match rest with
      | c :: d :: e :: rest2 =>
          if (if b == 0xF0 then 0x90 ≤ c && c < 0xC0
              else if b == 0xF4 then 0x80 ≤ c && c < 0x90
              else utf8Cont c) && utf8Cont d && utf8Cont e then
            (utf8Decode rest2).map
              (fun s => ((b - 0xF0) * 0x40000 + (c - 0x80) * 0x1000
                          + (d - 0x80) * 0x40 + (e - 0x80)) :: s)
          else none
      | _ => none
    else
      none

/-- Embedding of `to_str(data)` from Production.ipynb, Item 56: return str
input unchanged, decode bytes input as UTF-8, and raise TypeError for any
other input. -/
def to_str (data : PyData) : ToStrResult :=
  match data with
  | .str s => .ok s
  | .bytes b =>
      match utf8Decode b with
      | some s => .ok s
      | none => .unicodeDecodeError
  | .obj => .typeError

/-- The code points of the string `hello`, also the bytes of `b-hello`. -/
def helloStr : List Nat := [104, 101, 108, 108, 111]

/-! ### Item 15 (Functions.ipynb) — sort_priority2 / sort_priority3

The group argument is any container supporting membership tests; it is
modelled as its membership predicate.  The helper closure returns the tuple
`(0, x)` for members and `(1, x)` for non-members, and `numbers.sort(key=helper)`
sorts by those tuples in lexicographic order.  Python computes the key for
every element of the list, so the `found` flag of sort_priority3 ends up true
exactly when some element is a member. -/

/-- The key computed by the `helper` closure: `(0, x)` when `x in group`,
`(1, x)` otherwise. -/
def helperKey (group : Int → Bool) (x : Int) : Nat × Int :=
  if group x then (0, x) else (1, x)

/-- Lexicographic order on the key tuples, as Python compares tuples. -/
def tupleLe (p q : Nat × Int) : Bool :=
  decide (p.1 < q.1 ∨ (p.1 = q.1 ∧ p.2 ≤ q.2))

/-- The element order induced by `helper` keys, used by `numbers.sort`. -/
def priorityLe (group : Int → Bool) (a b : Int) : Bool :=
  tupleLe (helperKey group a) (helperKey group b)

/-- Embedding of `sort_priority3(numbers, group)` from Functions.ipynb:
`found` is declared nonlocal in the helper, so the assignments made while the
sort computes keys are visible after the sort, and the function returns true
exactly when the key of some element was a member key; the list is sorted
stably by the helper keys. -/
def sort_priority3 (numbers : List Int) (group : Int → Bool) : Bool × List Int :=
  (numbers.any group, numbers.mergeSort (priorityLe group))

/-- Embedding of `sort_priority2(numbers, group)` from Functions.ipynb: the
assignment `found = True` inside the helper defines a fresh local variable of
the helper scope, so the outer `found` remains False and is what the function
returns; the list is still sorted by the same helper keys. -/
def sort_priority2 (numbers : List Int) (group : Int → Bool) : Bool × List Int :=
  (false, numbers.mergeSort (priorityLe group))

/-! ### Item 58 (Production.ipynb) — insertion_sort via bisect_left -/

/-- The while loop of the stdlib `bisect_left(a, x, lo, hi)`: while lo < hi,
take mid = (lo + hi) // 2 and move lo past mid when a[mid] < x, otherwise
drop hi to mid; the answer is lo. -/
def bisectLoop (a : List Int) (x : Int) (lo hi : Nat) : Nat :=
  if h : lo < hi then
    if a.getD ((lo + hi) / 2) 0 < x then bisectLoop a x ((lo + hi) / 2 + 1) hi
    else bisectLoop a x lo ((lo + hi) / 2)
  else lo
termination_by hi - lo
decreasing_by
  all_goals omega

/-- Library `bisect_left(a, x)` with the default bounds lo=0, hi=len(a). -/
def bisect_left (a : List Int) (x : Int) : Nat :=
  bisectLoop a x 0 a.length

/-- Embedding of `insert_value(array, value)` from Production.ipynb, Item 58:
`array.insert(i, value)` at the index found by `bisect_left(array, value)`.
The Python call mutates `array` in place; the embedding returns the mutated
list. -/
def insert_value (array : List Int) (value : Int) : List Int :=
  array.take (bisect_left array value) ++ value :: array.drop (bisect_left array value)

/-- Embedding of `insertion_sort(data)` from Production.ipynb, Item 58:
start from an empty `result` list and `insert_value` each element of `data`
into it in order; `data` itself is only iterated, never written. -/
def insertion_sort (data : List Int) : List Int :=
  data.foldl insert_value []

end EffectivePy

namespace EffectivePy

/-! ## Claims -/

/-- C1: for every string word, `palindrome word` returns true exactly when
the word equals its own reversal. -/
theorem palindrome_spec (word : List Char) :
    palindrome word = true ↔ word = word.reverse := by
  simp [palindrome]

/-- C3: for every division behaviour, number, divisor and pair of flags,
`better_safe_division` (flags passed as keywords at Python call sites) agrees
exactly with `safe_division` (flags passed positionally): the quotient when
the division succeeds, 0 when an OverflowError is raised and ignored,
infinity when a ZeroDivisionError is raised and ignored, and the same
re-raised exception otherwise. -/
theorem better_safe_division_spec (div : Rat → Rat → Except PyExn Rat)
    (number divisor : Rat) (ignore_overflow ignore_zero_division : Bool) :
    better_safe_division div number divisor ignore_overflow ignore_zero_division
      = safe_division div number divisor ignore_overflow ignore_zero_division ∧
    safe_division div number divisor ignore_overflow ignore_zero_division
      = match div number divisor with
        | .ok v => .ok (.num v)
        | .error .overflowError =>
            if ignore_overflow then .ok (.num 0) else .error .overflowError
        | .error .zeroDivisionError =>
            if ignore_zero_division then .ok .inf
            else .error .zeroDivisionError := by
  constructor
  · rfl
  · rfl

/-- C8: the pickle round trip through the copyreg registration preserves the
level, lives and points fields of every GameState: `pickle_game_state` tags
the payload with version 2, and `unpickle_game_state` sees version 2, keeps
the lives entry and rebuilds the state from all three fields. -/
theorem pickle_roundtrip_spec (s : GameState) :
    pickle_loads (pickle_dumps (gsDict s)).1 = s ∧
    (pickle_dumps (gsDict s)).1.version = some 2 := by
  cases s
  constructor
  · simp [pickle_loads, pickle_dumps, pickle_game_state, unpickle_game_state, gsDict]
  · rfl

/-- C9: `pickle_game_state` returns the object dict itself rather than a
copy, so serializing mutates the original object: after `pickle.dumps`, the
object dict has a version entry set to 2 while keeping level, lives and
points, and the serialized payload is that very dict. -/
theorem pickle_mutates_spec (s : GameState) :
    (pickle_dumps (gsDict s)).2.version = some 2 ∧
    (pickle_dumps (gsDict s)).2.level = s.level ∧
    (pickle_dumps (gsDict s)).2.lives = s.lives ∧
    (pickle_dumps (gsDict s)).2.points = s.points ∧
    (pickle_dumps (gsDict s)).1 = (pickle_dumps (gsDict s)).2 := by
  refine ⟨rfl, rfl, rfl, rfl, rfl⟩

/-- C10: the with-statement form and the explicit acquire/try/finally form of
the Item 43 lock demo are equivalent; in both, the lock is acquired, the body
runs while the lock is held, the lock is released afterwards even when the
body raises, and the lock is no longer held after the block. -/
theorem lock_demo_spec (raises : Bool) (s : LockSt) :
    explicitLockDemo raises s = withLockDemo raises s ∧
    (withLockDemo raises s).2.held = false ∧
    (withLockDemo raises s).2.trace
      = s.trace ++ [.acquired, .ran true, .released] ∧
    (withLockDemo raises s).1 = (if raises then .raised else .ok) := by
  refine ⟨rfl, rfl, ?_, rfl⟩
  simp [withLockDemo, lockAcquire, lockRelease, runBody]

/-- C2: for a file that parses as a JSON object with numeric numerator and
denominator, `divide_json` returns UNDEFINED on a zero denominator and then
writes nothing back; otherwise it returns the quotient and writes the object
extended with a result field back; on every path (zero denominator, success,
and an unhandled parse exception) the handle is closed before control leaves
the function. -/
theorem divide_json_spec (f : JFile) (op : JOp) (h : f.op = some op) :
    (op.denominator = 0 →
      divide_json f
        = (.undefined, { op := f.op, result := f.result, closed := true })) ∧
    (op.denominator ≠ 0 →
      divide_json f
        = (.value (op.numerator / op.denominator),
           { op := f.op, result := some (op.numerator / op.denominator),
             closed := true })) ∧
    (∀ g : JFile, (divide_json g).2.closed = true) := by
  refine ⟨?_, ?_, ?_⟩
  · intro hz
    simp [divide_json, h, hz]
  · intro hz
    simp [divide_json, h, hz]
  · intro g
    rcases hg : g.op with _ | op2
    · simp [divide_json, hg]
    · by_cases hz : op2.denominator = 0 <;> simp [divide_json, hg, hz]

/-- C2 witness: instantiated at concrete files holding 3/0 and 8/2. -/
theorem divide_json_spec_witness :
    divide_json { op := some { numerator := 3, denominator := 0 },
                  result := none, closed := false }
      = (.undefined,
         { op := some { numerator := 3, denominator := 0 },
           result := none, closed := true }) ∧
    divide_json { op := some { numerator := 8, denominator := 2 },
                  result := none, closed := false }
      = (.value 4,
         { op := some { numerator := 8, denominator := 2 },
           result := some 4, closed := true }) := by
  constructor
  · exact (divide_json_spec
      { op := some { numerator := 3, denominator := 0 },
        result := none, closed := false }
      { numerator := 3, denominator := 0 } rfl).1 rfl
  · have h := (divide_json_spec
      { op := some { numerator := 8, denominator := 2 },
        result := none, closed := false }
      { numerator := 8, denominator := 2 } rfl).2.1 (by norm_num)
    have h4 : (8 : Rat) / 2 = 4 := by norm_num
    rw [h4] at h
    exact h

/-- C6: `to_str` returns a str argument unchanged, returns the UTF-8
decoding of a bytes argument (whenever the bytes decode), raises TypeError
on any other argument, and consequently the three unittest cases of
Production.ipynb pass: to_str on the bytes of hello and on the string hello
both give hello, and to_str on a plain object raises TypeError. -/
theorem to_str_spec :
    (∀ s : PyStr, to_str (.str s) = .ok s) ∧
    (∀ (b : List Nat) (s : PyStr), utf8Decode b = some s → to_str (.bytes b) = .ok s) ∧
    to_str .obj = .typeError ∧
    to_str (.bytes helloStr) = .ok helloStr ∧
    to_str (.str helloStr) = .ok helloStr := by
  refine ⟨fun s => rfl, ?_, rfl, ?_, rfl⟩
  · intro b s hb
    simp [to_str, hb]
  · have : utf8Decode helloStr = some helloStr := by decide
    simp [to_str, this]

/-- C6 witness: the bytes clause applied at the concrete bytes of hello. -/
theorem to_str_spec_witness :
    to_str (.bytes helloStr) = .ok helloStr :=
  to_str_spec.2.1 helloStr helloStr (by decide)

/-- Transitivity of the helper-key order. -/
theorem priorityLe_trans (group : Int → Bool) (a b c : Int)
    (hab : priorityLe group a b) (hbc : priorityLe group b c) :
    priorityLe group a c := by
  simp only [priorityLe, tupleLe, helperKey] at *
  by_cases ha : group a <;> by_cases hb : group b <;> by_cases hc : group c <;>
    simp [ha, hb, hc] at * <;> omega

/-- Totality of the helper-key order. -/
theorem priorityLe_total (group : Int → Bool) (a b : Int) :
    priorityLe group a b || priorityLe group b a := by
  simp only [priorityLe, tupleLe, helperKey]
  by_cases ha : group a <;> by_cases hb : group b <;> simp [ha, hb] <;> omega

/-- Between two group members, the helper-key order is the numeric order. -/
theorem priorityLe_mem_mem {group : Int → Bool} {a b : Int}
    (ha : group a = true) (hb : group b = true)
    (h : priorityLe group a b = true) : a ≤ b := by
  simp [priorityLe, tupleLe, helperKey, ha, hb] at h
  exact h

/-- Between two non-members, the helper-key order is the numeric order. -/
theorem priorityLe_nonmem_nonmem {group : Int → Bool} {a b : Int}
    (ha : group a = false) (hb : group b = false)
    (h : priorityLe group a b = true) : a ≤ b := by
  simp [priorityLe, tupleLe, helperKey, ha, hb] at h
  exact h

/-- A non-member never precedes a member in the helper-key order. -/
theorem priorityLe_nonmem_mem {group : Int → Bool} {a b : Int}
    (ha : group a = false) (hb : group b = true) :
    priorityLe group a b = false := by
  simp [priorityLe, tupleLe, helperKey, ha, hb]

/-- A list that is pairwise ordered by helper keys splits into the group
members in ascending order followed by the non-members in ascending order. -/
theorem pairwise_priority_split (group : Int → Bool) :
    ∀ l : List Int, l.Pairwise (fun a b => priorityLe group a b = true) →
    ∃ A B, l = A ++ B ∧ (∀ x ∈ A, group x = true) ∧ (∀ x ∈ B, group x = false) ∧
      A.Pairwise (· ≤ ·) ∧ B.Pairwise (· ≤ ·)
  | [], _ => ⟨[], [], rfl, by simp, by simp, List.Pairwise.nil, List.Pairwise.nil⟩
  | x :: t, h => by
    rcases List.pairwise_cons.mp h with ⟨hx, ht⟩
    rcases pairwise_priority_split group t ht with ⟨A, B, hAB, hA, hB, hpA, hpB⟩
    by_cases hgx : group x = true
    · refine ⟨x :: A, B, by simp [hAB], ?_, hB, ?_, hpB⟩
      · intro y hy
        rcases List.mem_cons.mp hy with rfl | hy
        · exact hgx
        · exact hA y hy
      · refine List.pairwise_cons.mpr ⟨?_, hpA⟩
        intro a haA
        have hamem : a ∈ t := by
          rw [hAB]; exact List.mem_append.mpr (Or.inl haA)
        exact priorityLe_mem_mem hgx (hA a haA) (hx a hamem)
    · have hgx2 : group x = false := by
        cases hgxv : group x
        · rfl
        · exact absurd hgxv hgx
      have hAnil : A = [] := by
        cases hAcase : A with
        | nil => rfl
        | cons a rest =>
          exfalso
          have haA : a ∈ A := by rw [hAcase]; exact List.mem_cons_self a rest
          have hamem : a ∈ t := by
            rw [hAB]; exact List.mem_append.mpr (Or.inl haA)
          have := hx a hamem
          rw [priorityLe_nonmem_mem hgx2 (hA a haA)] at this
          exact Bool.noConfusion this
      subst hAnil
      simp only [List.nil_append] at hAB
      subst hAB
      refine ⟨[], x :: t, rfl, by simp, ?_, List.Pairwise.nil, ?_⟩
      · intro y hy
        rcases List.mem_cons.mp hy with rfl | hy
        · exact hgx2
        · exact hB y hy
      · refine List.pairwise_cons.mpr ⟨?_, hpB⟩
        intro b hbB
        exact priorityLe_nonmem_nonmem hgx2 (hB b hbB) (hx b hbB)

/-- C4: `sort_priority3` returns true exactly when some element of the list
is a member of the group, and the returned list is a permutation of the
input split as the group members in ascending order followed by the
non-members in ascending order. -/
theorem sort_priority3_spec (numbers : List Int) (group : Int → Bool) :
    ((sort_priority3 numbers group).1 = true ↔ ∃ x ∈ numbers, group x = true) ∧
    ((sort_priority3 numbers group).2).Perm numbers ∧
    ∃ A B, (sort_priority3 numbers group).2 = A ++ B ∧
      (∀ x ∈ A, group x = true) ∧ (∀ x ∈ B, group x = false) ∧
      A.Pairwise (· ≤ ·) ∧ B.Pairwise (· ≤ ·) := by
  refine ⟨?_, ?_, ?_⟩
  · simp [sort_priority3, List.any_eq_true]
  · exact List.mergeSort_perm numbers (priorityLe group)
  · apply pairwise_priority_split
    have h := @List.sorted_mergeSort Int (priorityLe group)
      (fun a b c hab hbc => priorityLe_trans group a b c hab hbc)
      (fun a b => priorityLe_total group a b) numbers
    exact h

/-- C5: `sort_priority2` returns false for every input, because the
assignment to found inside the helper creates a new helper-local variable,
while the list is still permuted with the group members (in ascending order)
before the non-members (in ascending order). -/
theorem sort_priority2_spec (numbers : List Int) (group : Int → Bool) :
    (sort_priority2 numbers group).1 = false ∧
    ((sort_priority2 numbers group).2).Perm numbers ∧
    ∃ A B, (sort_priority2 numbers group).2 = A ++ B ∧
      (∀ x ∈ A, group x = true) ∧ (∀ x ∈ B, group x = false) ∧
      A.Pairwise (· ≤ ·) ∧ B.Pairwise (· ≤ ·) := by
  refine ⟨rfl, ?_, ?_⟩
  · exact List.mergeSort_perm numbers (priorityLe group)
  · apply pairwise_priority_split
    have h := @List.sorted_mergeSort Int (priorityLe group)
      (fun a b c hab hbc => priorityLe_trans group a b c hab hbc)
      (fun a b => priorityLe_total group a b) numbers
    exact h

/-- Invariant of the bisect_left loop on a sorted list: the result r lies
between lo and hi, everything strictly before r is smaller than x, and
everything from r on is at least x. -/
theorem bisectLoop_spec (a : List Int) (x : Int) (lo hi : Nat)
    (hlohi : lo ≤ hi) (hhi : hi ≤ a.length)
    (hmono : ∀ i j : Nat, i ≤ j → j < a.length → a.getD i 0 ≤ a.getD j 0)
    (hbefore : ∀ j, j < lo → a.getD j 0 < x)
    (hafter : ∀ j, hi ≤ j → j < a.length → x ≤ a.getD j 0) :
    lo ≤ bisectLoop a x lo hi ∧ bisectLoop a x lo hi ≤ hi ∧
    (∀ j, j < bisectLoop a x lo hi → a.getD j 0 < x) ∧
    (∀ j, bisectLoop a x lo hi ≤ j → j < a.length → x ≤ a.getD j 0) := by
  rw [bisectLoop]
  split
  · rename_i h
    split
    · rename_i hmid
      have hrec := bisectLoop_spec a x ((lo + hi) / 2 + 1) hi (by omega) hhi hmono
        (by
          intro j hj
          exact lt_of_le_of_lt (hmono j ((lo + hi) / 2) (by omega) (by omega)) hmid)
        hafter
      exact ⟨le_trans (by omega) hrec.1, hrec.2.1, hrec.2.2.1, hrec.2.2.2⟩
    · rename_i hmid
      have hrec := bisectLoop_spec a x lo ((lo + hi) / 2) (by omega) (by omega) hmono
        hbefore
        (by
          intro j hj hjlen
          exact le_trans (not_lt.mp hmid) (hmono ((lo + hi) / 2) j hj hjlen))
      exact ⟨hrec.1, le_trans hrec.2.1 (by omega), hrec.2.2.1, hrec.2.2.2⟩
  · rename_i h
    refine ⟨le_refl lo, hlohi, hbefore, ?_⟩
    intro j hj hjlen
    exact hafter j (by omega) hjlen
termination_by hi - lo
decreasing_by
  all_goals omega

/-- A pairwise-sorted list is monotone in its positions. -/
theorem pairwise_getD_mono (a : List Int) (h : a.Pairwise (· ≤ ·)) :
    ∀ i j : Nat, i ≤ j → j < a.length → a.getD i 0 ≤ a.getD j 0 := by
  intro i j hij hj
  have hi : i < a.length := Nat.lt_of_le_of_lt hij hj
  rw [List.getD_eq_getElem _ _ hi, List.getD_eq_getElem _ _ hj]
  rcases Nat.eq_or_lt_of_le hij with rfl | hlt
  · exact le_refl _
  · exact List.pairwise_iff_getElem.mp h i j hi hj hlt

/-- Inserting a value at its bisect_left position keeps the list sorted. -/
theorem insert_value_pairwise (array : List Int) (value : Int)
    (h : array.Pairwise (· ≤ ·)) :
    (insert_value array value).Pairwise (· ≤ ·) := by
  have hmono := pairwise_getD_mono array h
  have hspec := bisectLoop_spec array value 0 array.length (Nat.zero_le _)
    (le_refl _) hmono
    (fun j hj => absurd hj (Nat.not_lt_zero j))
    (fun j hj hlen => absurd hlen (Nat.not_lt.mpr hj))
  rcases hspec with ⟨-, hle, hlt, hge⟩
  rw [insert_value]
  have hib : bisect_left array value = bisectLoop array value 0 array.length := rfl
  rw [hib]
  apply List.pairwise_append.mpr
  refine ⟨List.Pairwise.sublist (List.take_sublist _ array) h, ?_, ?_⟩
  · refine List.pairwise_cons.mpr
      ⟨?_, List.Pairwise.sublist (List.drop_sublist _ array) h⟩
    intro y hy
    rcases List.mem_iff_getElem.mp hy with ⟨j, hj, rfl⟩
    have hjlen : bisectLoop array value 0 array.length + j < array.length := by
      have := List.length_drop (bisectLoop array value 0 array.length) array
      omega
    rw [List.getElem_drop]
    have hv := hge (bisectLoop array value 0 array.length + j) (by omega) hjlen
    rwa [List.getD_eq_getElem _ _ hjlen] at hv
  · intro u hu v hv
    rcases List.mem_iff_getElem.mp hu with ⟨j, hj, rfl⟩
    have hjlen : j < array.length := by
      have := List.length_take (bisectLoop array value 0 array.length) array
      omega
    have hji : j < bisectLoop array value 0 array.length := by
      have := List.length_take (bisectLoop array value 0 array.length) array
      omega
    have hu_lt : array[j] < value := by
      have := hlt j hji
      rwa [List.getD_eq_getElem _ _ hjlen] at this
    rcases List.mem_cons.mp hv with rfl | hv2
    · rw [List.getElem_take]
      exact le_of_lt hu_lt
    · rcases List.mem_iff_getElem.mp hv2 with ⟨k, hk, rfl⟩
      have hklen : bisectLoop array value 0 array.length + k < array.length := by
        have := List.length_drop (bisectLoop array value 0 array.length) array
        omega
      rw [List.getElem_take, List.getElem_drop]
      have hv_ge := hge (bisectLoop array value 0 array.length + k) (by omega) hklen
      rw [List.getD_eq_getElem _ _ hklen] at hv_ge
      exact le_trans (le_of_lt hu_lt) hv_ge

/-- Inserting a value at its bisect_left position is, up to permutation,
consing it on. -/
theorem insert_value_perm (array : List Int) (value : Int) :
    (insert_value array value).Perm (value :: array) := by
  rw [insert_value]
  have h1 : (array.take (bisect_left array value)
      ++ value :: array.drop (bisect_left array value)).Perm
      (value :: (array.take (bisect_left array value)
        ++ array.drop (bisect_left array value))) := List.perm_middle
  rwa [List.take_append_drop] at h1

/-- Folding insert_value over the data keeps the accumulator sorted and
accumulates, up to permutation, the data on top of it. -/
theorem foldl_insert_spec (data : List Int) :
    ∀ acc : List Int, acc.Pairwise (· ≤ ·) →
      (data.foldl insert_value acc).Pairwise (· ≤ ·) ∧
      (data.foldl insert_value acc).Perm (data ++ acc) := by
  induction data with
  | nil =>
    intro acc hacc
    exact ⟨hacc, by simp⟩
  | cons v t ih =>
    intro acc hacc
    have h1 := insert_value_pairwise acc v hacc
    rcases ih (insert_value acc v) h1 with ⟨hp, hperm⟩
    refine ⟨hp, ?_⟩
    have p2 : (t ++ insert_value acc v).Perm (t ++ (v :: acc)) :=
      List.Perm.append_left t (insert_value_perm acc v)
    have p3 : (t ++ (v :: acc)).Perm (v :: (t ++ acc)) := List.perm_middle
    exact (hperm.trans p2).trans p3

/-- C7: `insertion_sort` returns a list sorted in non-decreasing order that
is a permutation of its input, each value having been placed at the position
found by bisect_left; the embedding is pure, matching that the Python code
only reads `data` and mutates the fresh `result` list. -/
theorem insertion_sort_spec (data : List Int) :
    (insertion_sort data).Pairwise (· ≤ ·) ∧ (insertion_sort data).Perm data := by
  have h := foldl_insert_spec data [] List.Pairwise.nil
  rw [insertion_sort]
  exact ⟨h.1, by simpa using h.2⟩

end EffectivePy
